import Mathlib

/-!
Verification of the daily-aws-news digest generator.

The digest Lambda handler computes a publication window from the
execution timestamp, fetches RSS feeds, filters items by the window,
translates text fields, aggregates product tags, and renders a markdown
body.  We embed the relevant functions shallowly:

* JS `Date` values are modelled as milliseconds since the Unix epoch
  (`Int`).  The Lambda runtime runs with TZ = UTC, so the local-time
  accessors `getHours`, `getMinutes`, `getDay`, `setHours(0,0,0,0)` and
  `setDate(getDate() ± n)` correspond to UTC calendar arithmetic.  On
  `Int`, `/` and `%` are Euclidean division and remainder, which for
  the positive divisors used here coincide with JS flooring semantics,
  also for pre-epoch instants.
* Fallible external calls (the AWS Translate client, the RSS fetch, the
  S3 HeadObject call) are modelled as `Except` / `Option` valued
  request results passed in as arguments.
* The markdown builder is modelled as a list of emitted elements.
-/

namespace DailyAwsNews

/-- Milliseconds per minute. -/
def msPerMinute : Int := 60000

/-- Milliseconds per hour. -/
def msPerHour : Int := 3600000

/-- Milliseconds per day. -/
def msPerDay : Int := 86400000

/-- JS `Date.prototype.getHours` under TZ=UTC: the hour-of-day component. -/
def getHours (t : Int) : Int := t % msPerDay / msPerHour

/-- JS `Date.prototype.getMinutes` under TZ=UTC: the minute component. -/
def getMinutes (t : Int) : Int := t % msPerHour / msPerMinute

/-- JS `setHours(0, 0, 0, 0)` under TZ=UTC: truncate to the start of the
calendar day containing `t`. -/
def startOfDay (t : Int) : Int := msPerDay * (t / msPerDay)

/-- JS `Date.prototype.getDay` under TZ=UTC: weekday, 0 = Sunday ...
6 = Saturday.  The epoch day (1970-01-01) was a Thursday (4). -/
def getDay (t : Int) : Int := (t / msPerDay + 4) % 7

/-- Embeds handler lines 98-102: `latestPubDate` starts as a copy of
`executedDate`; if its hours or minutes are non-zero it is truncated to
day-start (`setHours(0,0,0,0)`) and advanced one day
(`setDate(getDate()+1)`); otherwise it is left unchanged. -/
def normalizeLatest (t : Int) : Int :=
  if getHours t ≠ 0 ∨ getMinutes t ≠ 0 then startOfDay t + msPerDay else t

/-- Embeds handler lines 106-119: the `switch (latestPubDate.getDay())`
weekday correction applied to the pair `(oldestPubDate, latestPubDate)`.
Case 6 (Saturday): latest += 2 days.  Case 0 (Sunday): latest += 1 day
and oldest -= 1 day.  Case 1 (Monday): oldest -= 2 days.  Default: no
change. -/
def weekdayAdjust (oldest0 latest0 : Int) : Int × Int :=
  if getDay latest0 = 6 then (oldest0, latest0 + 2 * msPerDay)
  else if getDay latest0 = 0 then (oldest0 - msPerDay, latest0 + msPerDay)
  else if getDay latest0 = 1 then (oldest0 - 2 * msPerDay, latest0)
  else (oldest0, latest0)

/-- Embeds handler lines 96-119 end to end: normalize `latestPubDate`,
set `oldestPubDate` one day earlier (lines 103-104), then apply the
weekday switch.  Returns `(oldestPubDate, latestPubDate)`. -/
def computeWindow (t : Int) : Int × Int :=
  weekdayAdjust (normalizeLatest t - msPerDay) (normalizeLatest t)

/-- A parsed RSS item as used by the handler: `title`, `link` and
`contentSnippet` are accessed through non-null assertions or template
interpolation, `pubDate` is the already-parsed publication instant
(`new Date(item.pubDate!)` in ms), and `categories` is genuinely
optional (the code guards it with `?.` and `|| []`). -/
structure Item where
  title : String
  link : String
  contentSnippet : String
  pubDate : Int
  categories : Option (List String)
deriving DecidableEq

/-- A parsed feed: `parser.parseURL` result, reduced to the fields the
handler reads. -/
structure Feed where
  title : String
  items : List Item
deriving DecidableEq

/-- Embeds `getFeed` (lines 50-65): the fetch/parse attempt is the
`fetched` argument.  On success the items are filtered to
`pubDate > oldestPubDate && pubDate <= latestPubDate`; on any
retrieval or parse error the function catches, logs, and returns the
feed `{ title: 'error', items: [] }` instead of raising. -/
def getFeed (fetched : Except String Feed) (oldestPubDate latestPubDate : Int) : Feed :=
  match fetched with
  | Except.ok feed =>
      { feed with
        items := feed.items.filter
          (fun item => decide (oldestPubDate < item.pubDate) && decide (item.pubDate ≤ latestPubDate)) }
  | Except.error _ => { title := "error", items := [] }

/-- Embeds `translate` (lines 38-47): the Translate service call is the
`svc` argument, returning either a thrown error or a response whose
`TranslatedText` field may be absent.  The function propagates a thrown
error (there is no try/catch) and otherwise returns
`TranslatedText || text`, where JS `||` falls back to `text` when
`TranslatedText` is `undefined` or the empty string. -/
def translate (svc : String → Except String (Option String)) (text : String) :
    Except String String :=
  match svc text with
  | Except.error e => Except.error e
  | Except.ok translatedText =>
      Except.ok (match translatedText with
        | some s => if s = "" then text else s
        | none => text)

/-- Embeds the bluebird `Promise.map(items, ..., { concurrency: 5 })`
calls (lines 157-163 and the analogous per-group loops): the results
keep the input positions, and a rejection of any single mapper call
rejects the whole batch.  The concurrency ceiling does not affect the
value, so the batch is modelled as the sequential composition. -/
def translateBatch (svc : String → Except String (Option String)) :
    List String → Except String (List String)
  | [] => Except.ok []
  | text :: rest =>
      match translate svc text with
      | Except.error e => Except.error e
      | Except.ok r =>
          match translateBatch svc rest with
          | Except.error e => Except.error e
          | Except.ok rs => Except.ok (r :: rs)

/-- A sample translation service used to witness the batch property. -/
def svcAB : String → Except String (Option String) :=
  fun t => Except.ok (some (if t = "hello" then "A" else "B"))

/-- Embeds `getMetadata` (lines 23-35): the HeadObject call is the
`response` argument; on success the metadata map lookup may yield a
value or `undefined`; on a thrown error the catch returns `undefined`. -/
def getMetadata (response : Except String (Option String)) : Option String :=
  match response with
  | Except.ok val => val
  | Except.error _ => none

/-- Embeds line 138:
`date: await getMetadata(bucketName, objectKey, 'date') || executedDate.toISOString()`.
JS `||` uses the fallback when the left side is `undefined` or the
empty string. -/
def dateField (response : Except String (Option String)) (executedIso : String) : String :=
  match getMetadata response with
  | some stored => if stored = "" then executedIso else stored
  | none => executedIso

/-- The product-classification marker `'general:products/'` used in
line 167. -/
def productMarker : String := "general:products/"

/-- Embeds lines 166-167 for one item: flatten `categories` (treating a
missing list as `[]`, per `?.` and `|| []`), split each composite
category string on `','`, keep only the entries starting with the
product marker, and strip the marker.  A JS
`x.replace('general:products/', '')` removes the first occurrence of
the marker; on a string that starts with the marker this is exactly
dropping the marker-length prefix of the string. -/
def itemProductTags (categories : Option (List String)) : List String :=
  (((categories.getD []).flatMap (fun x => x.splitOn ",")).filter
      (fun x => x.startsWith productMarker)).map
    (fun x => x.drop productMarker.length)

/-- The `frontMatter.tags.push(...products)` accumulation over all
announcement items (lines 165-169), before deduplication. -/
def rawProductTags (items : List Item) : List String :=
  items.flatMap (fun item => itemProductTags item.categories)

/-- One insertion step of a JS `Set` built from a list: a new element is
appended, an already-present one is skipped. -/
def jsSetInsert (acc : List String) (x : String) : List String :=
  if x ∈ acc then acc else acc ++ [x]

/-- Embeds line 235, `Array.from(new Set(frontMatter.tags))`: iterate
the list, keeping the first occurrence of each element. -/
def jsSetDedup (l : List String) : List String := l.foldl jsSetInsert []

/-- The complete tag aggregation of the handler: accumulate the product
tags of every announcement item, then deduplicate. -/
def aggregateTags (items : List Item) : List String :=
  jsSetDedup (rawProductTags items)

/-- One markdown-builder emission, as produced by the
`markdown-doc-builder` calls the handler makes. -/
inductive MdElem where
  | text : String → MdElem
  | bold : String → MdElem
  | blockQuote : String → MdElem
  | h3 : String → MdElem
  | h4 : String → MdElem
  | newline : MdElem
deriving DecidableEq

/-- A named source group as pushed into `data.youtube` / `data.blogs`. -/
structure FeedGroup where
  title : String
  items : List Item
deriving DecidableEq

/-- A source group as pushed into `data.oss` (carries the repo URL). -/
structure OssGroup where
  title : String
  link : String
  items : List Item
deriving DecidableEq

/-- The `data: contentData` accumulator of the handler (lines 145-150),
after the per-source loops have filled it. -/
structure ContentData where
  announcements : List Item
  youtube : List FeedGroup
  blogs : List FeedGroup
  oss : List OssGroup
deriving DecidableEq

/-- Line 244: the announcements heading, localized. -/
def announcementsHeader (lang : String) : String :=
  if lang = "ja" then "最近の発表" else "Recent Announcements"

/-- One bulleted item line, `mdBody.text('- [title](link)').newline()`. -/
def itemLine (item : Item) : List MdElem :=
  [MdElem.text ("- [" ++ item.title ++ "](" ++ item.link ++ ")"), MdElem.newline]

/-- One announcement entry, lines 248-249: bolded link, newline, quoted
snippet. -/
def announcementLine (item : Item) : List MdElem :=
  [MdElem.bold ("[" ++ item.title ++ "](" ++ item.link ++ ")"), MdElem.newline,
   MdElem.blockQuote item.contentSnippet]

/-- Embeds lines 244-253: the announcements section is always emitted —
its heading, then either one entry per item, or the literal placeholder
`'No updates.'` when there are no items. -/
def announcementsSection (lang : String) (anns : List Item) : List MdElem :=
  MdElem.h3 (announcementsHeader lang) ::
    (if 0 < anns.length then anns.flatMap announcementLine
     else [MdElem.text "No updates.", MdElem.newline])

/-- Embeds lines 256-262: the YouTube section body (only emitted when
`data.youtube` is non-empty). -/
def youtubeSection (groups : List FeedGroup) : List MdElem :=
  MdElem.h3 "YouTube" ::
    groups.flatMap (fun g => MdElem.h4 g.title :: g.items.flatMap itemLine)

/-- Embeds lines 266-272: the blogs section body; note the extra
`.newline()` after each blog sub-heading (line 268). -/
def blogsSection (groups : List FeedGroup) : List MdElem :=
  MdElem.h3 "AWS Blogs" ::
    groups.flatMap (fun g =>
      MdElem.h4 g.title :: MdElem.newline :: g.items.flatMap itemLine)

/-- Embeds lines 276-282: the open-source section body. -/
def ossSection (groups : List OssGroup) : List MdElem :=
  MdElem.h3 "Open Source Project" ::
    groups.flatMap (fun g => MdElem.h4 g.title :: g.items.flatMap itemLine)

/-- Embeds lines 237-283: the full body emission order — front-matter
line, window display line, the announcements section, then the three
guarded sections, each emitted only when its group list is non-empty. -/
def renderBody (lang frontMatterJson pubDateRange : String) (data : ContentData) :
    List MdElem :=
  [MdElem.text frontMatterJson, MdElem.newline, MdElem.text pubDateRange, MdElem.newline]
  ++ announcementsSection lang data.announcements
  ++ (if 0 < data.youtube.length then youtubeSection data.youtube else [])
  ++ (if 0 < data.blogs.length then blogsSection data.blogs else [])
  ++ (if 0 < data.oss.length then ossSection data.oss else [])

/-- Embeds the per-source accumulation pattern of lines 187-233: for
each fetched `(title, items)` pair, push a group onto the data list only
when `items.length > 0`. -/
def collectGroups (fetched : List (String × List Item)) : List FeedGroup :=
  fetched.filterMap
    (fun tg => if 0 < tg.2.length then some (FeedGroup.mk tg.1 tg.2) else none)

/-- The section headings (`h3` emissions) of a rendered body, in order. -/
def h3Labels (body : List MdElem) : List String :=
  body.filterMap (fun e =>
    match e with
    | MdElem.h3 s => some s
    | _ => none)

/-- The group sub-headings (`h4` emissions) of a rendered body, in
order. -/
def h4Labels (body : List MdElem) : List String :=
  body.filterMap (fun e =>
    match e with
    | MdElem.h4 s => some s
    | _ => none)

lemma computeWindow_cases (t : Int) :
    computeWindow t =
      if getDay (normalizeLatest t) = 6 then
        (normalizeLatest t - msPerDay, normalizeLatest t + 2 * msPerDay)
      else if getDay (normalizeLatest t) = 0 then
        (normalizeLatest t - 2 * msPerDay, normalizeLatest t + msPerDay)
      else if getDay (normalizeLatest t) = 1 then
        (normalizeLatest t - 3 * msPerDay, normalizeLatest t)
      else (normalizeLatest t - msPerDay, normalizeLatest t) := by
  unfold computeWindow weekdayAdjust
  rcases eq_or_ne (getDay (normalizeLatest t)) 6 with h6 | h6
  · simp [h6]
  · rcases eq_or_ne (getDay (normalizeLatest t)) 0 with h0 | h0
    · simp only [h0]
      norm_num
      ring
    · rcases eq_or_ne (getDay (normalizeLatest t)) 1 with h1 | h1
      · simp only [h1]
        norm_num
        ring
      · simp [h6, h0, h1]

/-- C3 counterexample: at execution time 1970-01-01T00:00:30Z
(t = 30000 ms) the hours and minutes are both zero, so the code leaves
`latestPubDate` at 30000 — which is neither the day-start (the input is
not exactly at day-start, its seconds are non-zero) nor the start of the
following day, and is not a midnight boundary at all. -/
theorem normalizeLatest_seconds_counterexample :
    normalizeLatest 30000 = 30000 ∧
    (30000 : Int) ≠ startOfDay 30000 ∧
    normalizeLatest 30000 ≠ startOfDay 30000 + msPerDay ∧
    (normalizeLatest 30000) % msPerDay ≠ 0 := by
  refine ⟨?_, by decide, by decide, by decide⟩
  decide

/-- C3 amended: the pre-correction `latest` equals the execution time
unchanged when the execution time is exactly at day-start; it equals the
start of the following day when the time-of-day has a non-zero hour or
minute component (offset into the day of at least one minute); but when
hours and minutes are both zero and only seconds or milliseconds are
non-zero, `latest` equals the execution time unchanged, so the window
does not close at a midnight boundary in that case. -/
theorem normalizeLatest_characterization (t : Int) :
    (t % msPerDay = 0 → normalizeLatest t = t) ∧
    (msPerMinute ≤ t % msPerDay →
      normalizeLatest t = startOfDay t + msPerDay ∧
      t < normalizeLatest t ∧ (normalizeLatest t) % msPerDay = 0) ∧
    (0 < t % msPerDay → t % msPerDay < msPerMinute →
      normalizeLatest t = t) := by
  unfold normalizeLatest getHours getMinutes startOfDay msPerDay msPerHour msPerMinute
  split <;> rename_i h
  · refine ⟨?_, ?_, ?_⟩ <;> intros <;> omega
  · refine ⟨?_, ?_, ?_⟩ <;> intros <;> omega

/-- C3 witness: at t = 3600000 (01:00:00Z) the offset into the day is at
least one minute, and the normalized latest is the next midnight. -/
theorem normalizeLatest_characterization_witness :
    msPerMinute ≤ (3600000 : Int) % msPerDay ∧
    normalizeLatest 3600000 = startOfDay 3600000 + msPerDay := by
  have h := (normalizeLatest_characterization 3600000).2.1 (by decide)
  exact ⟨by decide, h.1⟩

/-- C4: the weekday correction is driven by the weekday of the
normalized `latest`.  Saturday (6) adds 2 days to latest; Sunday (0)
adds 1 day to latest and subtracts 1 day from oldest; Monday (1)
subtracts 2 days from oldest; Tuesday-Friday (2-5) leave both
unchanged.  Consequently when the normalized latest falls on Saturday
the window spans exactly 3 calendar days. -/
theorem weekday_adjustment_cases (t : Int) :
    (getDay (normalizeLatest t) = 6 →
      computeWindow t = (normalizeLatest t - msPerDay, normalizeLatest t + 2 * msPerDay) ∧
      (computeWindow t).2 - (computeWindow t).1 = 3 * msPerDay) ∧
    (getDay (normalizeLatest t) = 0 →
      computeWindow t = (normalizeLatest t - 2 * msPerDay, normalizeLatest t + msPerDay)) ∧
    (getDay (normalizeLatest t) = 1 →
      computeWindow t = (normalizeLatest t - 3 * msPerDay, normalizeLatest t)) ∧
    (2 ≤ getDay (normalizeLatest t) → getDay (normalizeLatest t) ≤ 5 →
      computeWindow t = (normalizeLatest t - msPerDay, normalizeLatest t)) := by
  rw [computeWindow_cases]
  refine ⟨fun h6 => ?_, fun h0 => ?_, fun h1 => ?_, fun h2 h5 => ?_⟩
  · rw [if_pos h6]
    refine ⟨rfl, ?_⟩
    simp only [msPerDay]
    omega
  · rw [if_neg (by omega), if_pos h0]
  · rw [if_neg (by omega), if_neg (by omega), if_pos h1]
  · rw [if_neg (by omega), if_neg (by omega), if_neg (by omega)]

/-- C4 witness: t = 172800000 is 1970-01-03T00:00:00Z, a Saturday at
midnight; the adjusted window is (Friday midnight, Tuesday midnight),
spanning exactly 3 days. -/
theorem weekday_adjustment_cases_witness :
    getDay (normalizeLatest 172800000) = 6 ∧
    computeWindow 172800000 = (86400000, 345600000) ∧
    (computeWindow 172800000).2 - (computeWindow 172800000).1 = 3 * msPerDay := by
  have h := (weekday_adjustment_cases 172800000).1 (by decide)
  refine ⟨by decide, ?_, h.2⟩
  rw [h.1]
  decide

/-- C5: for every execution timestamp, after normalization and weekday
adjustment the computed window satisfies `oldestPubDate < latestPubDate`. -/
theorem window_oldest_lt_latest (t : Int) :
    (computeWindow t).1 < (computeWindow t).2 := by
  rw [computeWindow_cases]
  rcases eq_or_ne (getDay (normalizeLatest t)) 6 with h6 | h6
  · rw [if_pos h6]
    simp only [msPerDay]
    omega
  · rcases eq_or_ne (getDay (normalizeLatest t)) 0 with h0 | h0
    · rw [if_neg h6, if_pos h0]
      simp only [msPerDay]
      omega
    · rcases eq_or_ne (getDay (normalizeLatest t)) 1 with h1 | h1
      · rw [if_neg h6, if_neg h0, if_pos h1]
        simp only [msPerDay]
        omega
      · rw [if_neg h6, if_neg h0, if_neg h1]
        simp only [msPerDay]
        omega

/-- C2: an item of a successfully fetched feed is returned by `getFeed`
iff `oldest < publishedAt ≤ latest`; in particular an item published
exactly at `oldest` is excluded and an item published exactly at
`latest` is included. -/
theorem getFeed_window_filter (feed : Feed) (oldest latest : Int) (item : Item) :
    (item ∈ (getFeed (Except.ok feed) oldest latest).items ↔
      item ∈ feed.items ∧ oldest < item.pubDate ∧ item.pubDate ≤ latest) ∧
    (item.pubDate = oldest → item ∉ (getFeed (Except.ok feed) oldest latest).items) ∧
    (item ∈ feed.items → item.pubDate = latest → oldest < latest →
      item ∈ (getFeed (Except.ok feed) oldest latest).items) := by
  have hmem : item ∈ (getFeed (Except.ok feed) oldest latest).items ↔
      item ∈ feed.items ∧ oldest < item.pubDate ∧ item.pubDate ≤ latest := by
    simp [getFeed, List.mem_filter]
  refine ⟨hmem, fun heq hin => ?_, fun hin heq hlt => ?_⟩
  · rcases hmem.mp hin with ⟨-, hlt, -⟩
    omega
  · exact hmem.mpr ⟨hin, by omega, by omega⟩

/-- C2 witness: with window (0, 100], an item published at 0 is dropped
and an item published at 100 is kept. -/
theorem getFeed_window_filter_witness :
    (Item.mk "a" "la" "sa" 0 none ∉
      (getFeed (Except.ok (Feed.mk "f" [Item.mk "a" "la" "sa" 0 none, Item.mk "b" "lb" "sb" 100 none])) 0 100).items) ∧
    (Item.mk "b" "lb" "sb" 100 none ∈
      (getFeed (Except.ok (Feed.mk "f" [Item.mk "a" "la" "sa" 0 none, Item.mk "b" "lb" "sb" 100 none])) 0 100).items) := by
  constructor
  · exact (getFeed_window_filter
      (Feed.mk "f" [Item.mk "a" "la" "sa" 0 none, Item.mk "b" "lb" "sb" 100 none]) 0 100
      (Item.mk "a" "la" "sa" 0 none)).2.1 rfl
  · exact (getFeed_window_filter
      (Feed.mk "f" [Item.mk "a" "la" "sa" 0 none, Item.mk "b" "lb" "sb" 100 none]) 0 100
      (Item.mk "b" "lb" "sb" 100 none)).2.2 (by decide) rfl (by decide)

/-- C6: when retrieval or parsing fails, `getFeed` does not raise (it is
total on the error case) and returns the feed titled "error" with an
empty item list, for every error and every window. -/
theorem getFeed_error_empty (err : String) (oldest latest : Int) :
    getFeed (Except.error err) oldest latest = { title := "error", items := [] } := by
  rfl

/-- C1 counterexample: a batch of one text whose translation call throws
does not complete with 1 output — the batch itself fails, because
`translate` has no try/catch and `Promise.map` rejects when any mapper
rejects; the original text is not substituted. -/
theorem translateBatch_error_fails_batch :
    ¬ ∃ out : List String,
      translateBatch (fun _ => Except.error "ThrottlingException") ["hello"] = Except.ok out := by
  rintro ⟨out, h⟩
  simp [translateBatch, translate] at h

/-- C1 amended: if no translation call throws (the batch completes with
a value), it yields exactly N outputs and output i is the `translate`
result of input i — either the service's translated text or, when the
service returns no (or an empty) translated text, the original input i
unchanged; positional integrity holds.  A call that throws rejects the
whole batch instead of substituting the original text. -/
theorem translateBatch_ok_positional (svc : String → Except String (Option String))
    (texts out : List String) (h : translateBatch svc texts = Except.ok out) :
    out.length = texts.length ∧
    ∀ i (hi : i < texts.length) (ho : i < out.length),
      translate svc (texts.get ⟨i, hi⟩) = Except.ok (out.get ⟨i, ho⟩) ∧
      (out.get ⟨i, ho⟩ = texts.get ⟨i, hi⟩ ∨
        svc (texts.get ⟨i, hi⟩) = Except.ok (some (out.get ⟨i, ho⟩))) := by
  induction texts generalizing out with
  | nil =>
      simp only [translateBatch] at h
      cases h
      exact ⟨rfl, fun i hi ho => absurd hi (by simp)⟩
  | cons text rest ih =>
      simp only [translateBatch] at h
      rcases htr : translate svc text with e | r
      · rw [htr] at h
        exact absurd h (by simp)
      · rw [htr] at h
        rcases hrest : translateBatch svc rest with e | rs
        · rw [hrest] at h
          exact absurd h (by simp)
        · rw [hrest] at h
          cases h
          rcases ih rs hrest with ⟨hlen, hpos⟩
          refine ⟨by simp [hlen], ?_⟩
          intro i hi ho
          match i with
          | 0 =>
              refine ⟨htr, ?_⟩
              unfold translate at htr
              rcases hsvc : svc text with e | tt
              · rw [hsvc] at htr
                exact absurd htr (by simp)
              · rw [hsvc] at htr
                match tt with
                | none =>
                    simp only [] at htr
                    cases htr
                    exact Or.inl rfl
                | some s =>
                    simp only [] at htr
                    by_cases hs : s = ""
                    · rw [if_pos hs] at htr
                      cases htr
                      exact Or.inl rfl
                    · rw [if_neg hs] at htr
                      cases htr
                      exact Or.inr hsvc
          | Nat.succ j =>
              exact hpos j (by simpa using hi) (by simpa using ho)

/-- C1 witness: a two-text batch under the sample service `svcAB`
completes with 2 outputs in input positions. -/
theorem translateBatch_ok_positional_witness :
    ([("A" : String), "B"].length = [("hello" : String), "world"].length ∧
      ∀ i (hi : i < [("hello" : String), "world"].length)
        (ho : i < [("A" : String), "B"].length),
        translate svcAB ([("hello" : String), "world"].get ⟨i, hi⟩) =
          Except.ok ([("A" : String), "B"].get ⟨i, ho⟩) ∧
        ([("A" : String), "B"].get ⟨i, ho⟩ = [("hello" : String), "world"].get ⟨i, hi⟩ ∨
          svcAB ([("hello" : String), "world"].get ⟨i, hi⟩) =
            Except.ok (some ([("A" : String), "B"].get ⟨i, ho⟩)))) :=
  translateBatch_ok_positional svcAB ["hello", "world"] ["A", "B"]
    (by simp [translateBatch, translate, svcAB])

/-- C7: the frontMatter `date` is idempotent across re-renders: when the
metadata lookup succeeds and returns a stored date (a non-empty string —
the handler only ever stores ISO timestamps there), that date is used
unchanged; when the lookup throws or the `date` metadata key is absent,
the current execution time is used instead. -/
theorem dateField_idempotent (response : Except String (Option String))
    (executedIso stored : String) :
    (response = Except.ok (some stored) → stored ≠ "" →
      dateField response executedIso = stored) ∧
    (response = Except.ok none → dateField response executedIso = executedIso) ∧
    (∀ e, response = Except.error e → dateField response executedIso = executedIso) := by
  refine ⟨fun hok hne => ?_, fun hnone => ?_, fun e herr => ?_⟩
  · rw [hok]
    simp [dateField, getMetadata, hne]
  · rw [hnone]
    rfl
  · rw [herr]
    rfl

/-- C7 witness: a stored date "2022-01-02T00:00:00.000Z" from a prior
render is preserved; a failed lookup falls back to the execution time. -/
theorem dateField_idempotent_witness :
    dateField (Except.ok (some "2022-01-02T00:00:00.000Z")) "2022-03-04T05:06:07.000Z" =
      "2022-01-02T00:00:00.000Z" ∧
    dateField (Except.error "NotFound") "2022-03-04T05:06:07.000Z" =
      "2022-03-04T05:06:07.000Z" := by
  constructor
  · exact (dateField_idempotent (Except.ok (some "2022-01-02T00:00:00.000Z"))
      "2022-03-04T05:06:07.000Z" "2022-01-02T00:00:00.000Z").1 rfl (by decide)
  · exact (dateField_idempotent (Except.error "NotFound")
      "2022-03-04T05:06:07.000Z" "2022-01-02T00:00:00.000Z").2.2 "NotFound" rfl

lemma mem_jsSetInsert (acc : List String) (a x : String) :
    x ∈ jsSetInsert acc a ↔ x ∈ acc ∨ x = a := by
  unfold jsSetInsert
  split <;> rename_i h
  · constructor
    · exact Or.inl
    · rintro (hx | rfl)
      · exact hx
      · exact h
  · simp

lemma nodup_jsSetInsert (acc : List String) (a : String) (h : acc.Nodup) :
    (jsSetInsert acc a).Nodup := by
  unfold jsSetInsert
  split <;> rename_i ha
  · exact h
  · rw [List.nodup_append]
    refine ⟨h, List.nodup_singleton a, ?_⟩
    intro b hb hb'
    simp only [List.mem_singleton] at hb'
    subst hb'
    exact ha hb

lemma mem_foldl_jsSetInsert (l : List String) :
    ∀ acc x, x ∈ l.foldl jsSetInsert acc ↔ x ∈ acc ∨ x ∈ l := by
  induction l with
  | nil => simp
  | cons a l ih =>
      intro acc x
      rw [List.foldl_cons, ih, mem_jsSetInsert]
      simp only [List.mem_cons]
      tauto

lemma nodup_foldl_jsSetInsert (l : List String) :
    ∀ acc, acc.Nodup → (l.foldl jsSetInsert acc).Nodup := by
  induction l with
  | nil => exact fun acc h => h
  | cons a l ih =>
      intro acc h
      rw [List.foldl_cons]
      exact ih _ (nodup_jsSetInsert acc a h)

lemma mem_jsSetDedup (l : List String) (x : String) : x ∈ jsSetDedup l ↔ x ∈ l := by
  unfold jsSetDedup
  rw [mem_foldl_jsSetInsert]
  simp

lemma nodup_jsSetDedup (l : List String) : (jsSetDedup l).Nodup :=
  nodup_foldl_jsSetInsert l [] List.nodup_nil

/-- C8: the aggregated tag list is duplicate-free; as a set it is
exactly the product tags extracted from the items (flatten categories,
split on ',', keep entries with the product marker, strip the marker);
duplicate product tags across items collapse; and aggregating the same
item list twice yields the same set as aggregating it once. -/
theorem aggregateTags_spec (items : List Item) :
    (aggregateTags items).Nodup ∧
    (∀ x, x ∈ aggregateTags items ↔ x ∈ rawProductTags items) ∧
    (∀ x, x ∈ aggregateTags items ↔
      ∃ item ∈ items, ∃ c ∈ item.categories.getD [], ∃ piece ∈ c.splitOn ",",
        piece.startsWith productMarker ∧ piece.drop productMarker.length = x) ∧
    (∀ x, x ∈ aggregateTags (items ++ items) ↔ x ∈ aggregateTags items) := by
  refine ⟨nodup_jsSetDedup _, fun x => mem_jsSetDedup _ x, fun x => ?_, fun x => ?_⟩
  · rw [aggregateTags, mem_jsSetDedup]
    simp only [rawProductTags, itemProductTags, List.mem_flatMap, List.mem_map,
      List.mem_filter, decide_eq_true_eq]
    constructor
    · rintro ⟨item, hitem, y, ⟨⟨c, hc, hpiece⟩, hstarts⟩, hdrop⟩
      exact ⟨item, hitem, c, hc, y, hpiece, hstarts, hdrop⟩
    · rintro ⟨item, hitem, c, hc, piece, hpiece, hstarts, hdrop⟩
      exact ⟨item, hitem, piece, ⟨⟨c, hc, hpiece⟩, hstarts⟩, hdrop⟩
  · rw [aggregateTags, aggregateTags, mem_jsSetDedup, mem_jsSetDedup,
      rawProductTags, rawProductTags, List.flatMap_append, List.mem_append]
    tauto

lemma h3Labels_append (a b : List MdElem) :
    h3Labels (a ++ b) = h3Labels a ++ h3Labels b := by
  unfold h3Labels
  exact List.filterMap_append a b _

lemma h4Labels_append (a b : List MdElem) :
    h4Labels (a ++ b) = h4Labels a ++ h4Labels b := by
  unfold h4Labels
  exact List.filterMap_append a b _

lemma h3Labels_itemLines (items : List Item) :
    h3Labels (items.flatMap itemLine) = [] := by
  induction items with
  | nil => rfl
  | cons item rest ih => rw [List.flatMap_cons, h3Labels_append, ih]; rfl

lemma h4Labels_itemLines (items : List Item) :
    h4Labels (items.flatMap itemLine) = [] := by
  induction items with
  | nil => rfl
  | cons item rest ih => rw [List.flatMap_cons, h4Labels_append, ih]; rfl

lemma h3Labels_announcementLines (items : List Item) :
    h3Labels (items.flatMap announcementLine) = [] := by
  induction items with
  | nil => rfl
  | cons item rest ih => rw [List.flatMap_cons, h3Labels_append, ih]; rfl

lemma h4Labels_announcementLines (items : List Item) :
    h4Labels (items.flatMap announcementLine) = [] := by
  induction items with
  | nil => rfl
  | cons item rest ih => rw [List.flatMap_cons, h4Labels_append, ih]; rfl

lemma h3Labels_announcementsSection (lang : String) (anns : List Item) :
    h3Labels (announcementsSection lang anns) = [announcementsHeader lang] := by
  unfold announcementsSection
  split
  · show h3Labels (MdElem.h3 (announcementsHeader lang) :: anns.flatMap announcementLine) = _
    unfold h3Labels
    rw [List.filterMap_cons]
    simp only []
    rw [show (anns.flatMap announcementLine).filterMap _ = h3Labels (anns.flatMap announcementLine) from rfl,
      h3Labels_announcementLines]
  · rfl

lemma h4Labels_announcementsSection (lang : String) (anns : List Item) :
    h4Labels (announcementsSection lang anns) = [] := by
  unfold announcementsSection
  split
  · show h4Labels (MdElem.h3 (announcementsHeader lang) :: anns.flatMap announcementLine) = _
    unfold h4Labels
    rw [List.filterMap_cons]
    simp only []
    rw [show (anns.flatMap announcementLine).filterMap _ = h4Labels (anns.flatMap announcementLine) from rfl,
      h4Labels_announcementLines]
  · rfl

lemma h3Labels_groupBlocks (groups : List FeedGroup) :
    h3Labels (groups.flatMap (fun g => MdElem.h4 g.title :: g.items.flatMap itemLine)) = [] := by
  induction groups with
  | nil => rfl
  | cons g rest ih =>
      rw [List.flatMap_cons, h3Labels_append, ih]
      show h3Labels (MdElem.h4 g.title :: g.items.flatMap itemLine) ++ [] = []
      unfold h3Labels
      rw [List.filterMap_cons]
      simp only [List.append_nil]
      exact h3Labels_itemLines g.items

lemma h3Labels_blogBlocks (groups : List FeedGroup) :
    h3Labels (groups.flatMap
      (fun g => MdElem.h4 g.title :: MdElem.newline :: g.items.flatMap itemLine)) = [] := by
  induction groups with
  | nil => rfl
  | cons g rest ih =>
      rw [List.flatMap_cons, h3Labels_append, ih]
      show h3Labels (MdElem.h4 g.title :: MdElem.newline :: g.items.flatMap itemLine) ++ [] = []
      unfold h3Labels
      rw [List.filterMap_cons, List.filterMap_cons]
      simp only [List.append_nil]
      exact h3Labels_itemLines g.items

lemma h3Labels_ossBlocks (groups : List OssGroup) :
    h3Labels (groups.flatMap (fun g => MdElem.h4 g.title :: g.items.flatMap itemLine)) = [] := by
  induction groups with
  | nil => rfl
  | cons g rest ih =>
      rw [List.flatMap_cons, h3Labels_append, ih]
      show h3Labels (MdElem.h4 g.title :: g.items.flatMap itemLine) ++ [] = []
      unfold h3Labels
      rw [List.filterMap_cons]
      simp only [List.append_nil]
      exact h3Labels_itemLines g.items

lemma h4Labels_groupBlocks (groups : List FeedGroup) :
    h4Labels (groups.flatMap (fun g => MdElem.h4 g.title :: g.items.flatMap itemLine)) =
      groups.map FeedGroup.title := by
  induction groups with
  | nil => rfl
  | cons g rest ih =>
      rw [List.flatMap_cons, h4Labels_append, ih, List.map_cons]
      show h4Labels (MdElem.h4 g.title :: g.items.flatMap itemLine) ++ _ = _
      unfold h4Labels
      rw [List.filterMap_cons]
      simp only []
      rw [show (g.items.flatMap itemLine).filterMap _ = h4Labels (g.items.flatMap itemLine) from rfl,
        h4Labels_itemLines]
      rfl

lemma h4Labels_blogBlocks (groups : List FeedGroup) :
    h4Labels (groups.flatMap
        (fun g => MdElem.h4 g.title :: MdElem.newline :: g.items.flatMap itemLine)) =
      groups.map FeedGroup.title := by
  induction groups with
  | nil => rfl
  | cons g rest ih =>
      rw [List.flatMap_cons, h4Labels_append, ih, List.map_cons]
      show h4Labels (MdElem.h4 g.title :: MdElem.newline :: g.items.flatMap itemLine) ++ _ = _
      unfold h4Labels
      rw [List.filterMap_cons, List.filterMap_cons]
      simp only []
      rw [show (g.items.flatMap itemLine).filterMap _ = h4Labels (g.items.flatMap itemLine) from rfl,
        h4Labels_itemLines]
      rfl

lemma h4Labels_ossBlocks (groups : List OssGroup) :
    h4Labels (groups.flatMap (fun g => MdElem.h4 g.title :: g.items.flatMap itemLine)) =
      groups.map OssGroup.title := by
  induction groups with
  | nil => rfl
  | cons g rest ih =>
      rw [List.flatMap_cons, h4Labels_append, ih, List.map_cons]
      show h4Labels (MdElem.h4 g.title :: g.items.flatMap itemLine) ++ _ = _
      unfold h4Labels
      rw [List.filterMap_cons]
      simp only []
      rw [show (g.items.flatMap itemLine).filterMap _ = h4Labels (g.items.flatMap itemLine) from rfl,
        h4Labels_itemLines]
      rfl

/-- C9: (1) when every non-primary group list is empty the rendered
body is exactly the preamble followed by the announcements section —
no other section, heading, or placeholder is emitted; (2) in general
the section headings of the rendered body are the announcements
heading followed, in the fixed order YouTube / AWS Blogs / Open Source
Project, by exactly the headings of the non-empty group lists; (3) the
per-source accumulation pushes exactly the fetched groups with at
least one in-window item, so a group that yields zero items is never
rendered; (4) the group sub-headings of the body are exactly the
collected groups' titles, in section order. -/
theorem render_sections_spec :
    (∀ lang fm pr anns,
      renderBody lang fm pr (ContentData.mk anns [] [] []) =
        [MdElem.text fm, MdElem.newline, MdElem.text pr, MdElem.newline] ++
          announcementsSection lang anns) ∧
    (∀ lang fm pr data,
      h3Labels (renderBody lang fm pr data) =
        announcementsHeader lang ::
          ((if 0 < data.youtube.length then ["YouTube"] else []) ++
           (if 0 < data.blogs.length then ["AWS Blogs"] else []) ++
           (if 0 < data.oss.length then ["Open Source Project"] else []))) ∧
    (∀ fetched,
      collectGroups fetched =
        (fetched.filter (fun tg => decide (0 < tg.2.length))).map
          (fun tg => FeedGroup.mk tg.1 tg.2)) ∧
    (∀ lang fm pr data,
      h4Labels (renderBody lang fm pr data) =
        data.youtube.map FeedGroup.title ++ data.blogs.map FeedGroup.title ++
          data.oss.map OssGroup.title) := by
  refine ⟨fun lang fm pr anns => ?_, fun lang fm pr data => ?_, fun fetched => ?_,
    fun lang fm pr data => ?_⟩
  · simp [renderBody]
  · rw [renderBody, h3Labels_append, h3Labels_append, h3Labels_append, h3Labels_append,
      h3Labels_announcementsSection]
    have hpre : h3Labels [MdElem.text fm, MdElem.newline, MdElem.text pr, MdElem.newline] = [] := rfl
    have hyt : h3Labels (if 0 < data.youtube.length then youtubeSection data.youtube else []) =
        (if 0 < data.youtube.length then ["YouTube"] else []) := by
      split
      · unfold youtubeSection h3Labels
        rw [List.filterMap_cons]
        simp only []
        rw [show (data.youtube.flatMap _).filterMap _ =
            h3Labels (data.youtube.flatMap (fun g => MdElem.h4 g.title :: g.items.flatMap itemLine)) from rfl,
          h3Labels_groupBlocks]
      · rfl
    have hbl : h3Labels (if 0 < data.blogs.length then blogsSection data.blogs else []) =
        (if 0 < data.blogs.length then ["AWS Blogs"] else []) := by
      split
      · unfold blogsSection h3Labels
        rw [List.filterMap_cons]
        simp only []
        rw [show (data.blogs.flatMap _).filterMap _ =
            h3Labels (data.blogs.flatMap
              (fun g => MdElem.h4 g.title :: MdElem.newline :: g.items.flatMap itemLine)) from rfl,
          h3Labels_blogBlocks]
      · rfl
    have hoss : h3Labels (if 0 < data.oss.length then ossSection data.oss else []) =
        (if 0 < data.oss.length then ["Open Source Project"] else []) := by
      split
      · unfold ossSection h3Labels
        rw [List.filterMap_cons]
        simp only []
        rw [show (data.oss.flatMap _).filterMap _ =
            h3Labels (data.oss.flatMap (fun g => MdElem.h4 g.title :: g.items.flatMap itemLine)) from rfl,
          h3Labels_ossBlocks]
      · rfl
    rw [hpre, hyt, hbl, hoss]
    simp
  · induction fetched with
    | nil => rfl
    | cons tg rest ih =>
        unfold collectGroups at ih ⊢
        rw [List.filterMap_cons, List.filter_cons]
        by_cases h : 0 < tg.2.length
        · simp [h, ih]
        · simp [h, ih]
  · rw [renderBody, h4Labels_append, h4Labels_append, h4Labels_append, h4Labels_append,
      h4Labels_announcementsSection]
    have hpre : h4Labels [MdElem.text fm, MdElem.newline, MdElem.text pr, MdElem.newline] = [] := rfl
    have hyt : h4Labels (if 0 < data.youtube.length then youtubeSection data.youtube else []) =
        data.youtube.map FeedGroup.title := by
      split <;> rename_i h
      · unfold youtubeSection h4Labels
        rw [List.filterMap_cons]
        simp only []
        rw [show (data.youtube.flatMap _).filterMap _ =
            h4Labels (data.youtube.flatMap (fun g => MdElem.h4 g.title :: g.items.flatMap itemLine)) from rfl,
          h4Labels_groupBlocks]
      · rw [List.length_pos] at h
        simp only [not_ne_iff] at h
        rw [h]
        rfl
    have hbl : h4Labels (if 0 < data.blogs.length then blogsSection data.blogs else []) =
        data.blogs.map FeedGroup.title := by
      split <;> rename_i h
      · unfold blogsSection h4Labels
        rw [List.filterMap_cons]
        simp only []
        rw [show (data.blogs.flatMap _).filterMap _ =
            h4Labels (data.blogs.flatMap
              (fun g => MdElem.h4 g.title :: MdElem.newline :: g.items.flatMap itemLine)) from rfl,
          h4Labels_blogBlocks]
      · rw [List.length_pos] at h
        simp only [not_ne_iff] at h
        rw [h]
        rfl
    have hoss : h4Labels (if 0 < data.oss.length then ossSection data.oss else []) =
        data.oss.map OssGroup.title := by
      split <;> rename_i h
      · unfold ossSection h4Labels
        rw [List.filterMap_cons]
        simp only []
        rw [show (data.oss.flatMap _).filterMap _ =
            h4Labels (data.oss.flatMap (fun g => MdElem.h4 g.title :: g.items.flatMap itemLine)) from rfl,
          h4Labels_ossBlocks]
      · rw [List.length_pos] at h
        simp only [not_ne_iff] at h
        rw [h]
        rfl
    rw [hpre, hyt, hbl, hoss]
    simp

/-- C10: the announcements section, unlike every other section, is
always rendered: with zero announcement items the body still contains
the announcements heading immediately followed by the literal
placeholder text 'No updates.', while every other section remains
guarded by non-emptiness. -/
theorem announcements_always_rendered (lang fm pr : String)
    (yt blogs : List FeedGroup) (oss : List OssGroup) :
    renderBody lang fm pr (ContentData.mk [] yt blogs oss) =
      [MdElem.text fm, MdElem.newline, MdElem.text pr, MdElem.newline,
       MdElem.h3 (announcementsHeader lang), MdElem.text "No updates.", MdElem.newline] ++
      ((if 0 < yt.length then youtubeSection yt else []) ++
       (if 0 < blogs.length then blogsSection blogs else []) ++
       (if 0 < oss.length then ossSection oss else [])) := by
  simp [renderBody, announcementsSection]

end DailyAwsNews
